import Mathlib

/-!
Verification of the lobby orchestration layer of the OpenFrontIO server:
a shallow embedding of `MasterLobbyService` (master coordinator),
`WorkerLobbyService` (worker-side lobby owner) and the cluster supervisor
in `Master.ts`, together with proofs of the specified properties.
-/

set_option maxHeartbeats 1000000

namespace Orchestration

/-- `PublicGameInfo` from `core/Schemas`: the public summary of one lobby.
The opaque `gameConfig` payload is represented by a string token. -/
structure PublicGameInfo where
  gameID : String
  numClients : Nat
  startsAt : Int
  gameConfig : String
  deriving Repr, DecidableEq

/-- `PublicGames` from `core/Schemas`: the global lobby view broadcast to
every worker on a broadcast tick. -/
structure PublicGames where
  serverTime : Int
  games : List PublicGameInfo
  deriving Repr, DecidableEq

/-! ### JavaScript `Map` / `Set` semantics

`MasterLobbyService` keeps its registration state in a JS `Map` (insertion
ordered, `set` replaces in place, `delete` removes) and a JS `Set`.  We embed
them as association lists / lists kept in insertion order. -/

/-- `Map.prototype.set`: replace in place when the key is present, otherwise
append at the end (JS maps preserve insertion order). -/
def jsSet {α : Type} (m : List (Nat × α)) (k : Nat) (v : α) : List (Nat × α) :=
  match m with
  | [] => [(k, v)]
  | (k₁, v₁) :: rest => if k₁ = k then (k, v) :: rest else (k₁, v₁) :: jsSet rest k v

/-- `Map.prototype.delete`. -/
def jsDelete {α : Type} (m : List (Nat × α)) (k : Nat) : List (Nat × α) :=
  m.filter (fun e => e.1 ≠ k)

/-- `Map.prototype.get`. -/
def jsGet {α : Type} (m : List (Nat × α)) (k : Nat) : Option α :=
  match m with
  | [] => none
  | (k₁, v₁) :: rest => if k₁ = k then some v₁ else jsGet rest k

/-- `Array.from(m.values())` for a JS map: values in insertion order. -/
def jsValues {α : Type} (m : List (Nat × α)) : List α :=
  m.map Prod.snd

/-- `Set.prototype.add`: append only when absent. -/
def jsAdd (s : List Nat) (k : Nat) : List Nat :=
  if k ∈ s then s else s ++ [k]

/-- `Set.prototype.delete`. -/
def jsErase (s : List Nat) (k : Nat) : List Nat :=
  s.filter (fun e => e ≠ k)

/-! ### Master coordinator state (`MasterLobbyService`)

The worker handle type is a parameter: the supervisor model instantiates it
with a handle carrying the fork environment, the pure coordinator proofs use
plain tokens.  `startEvents` records each execution of the guarded loop-start
block in `handleWorkerReady` (the two `startPolling` calls). -/

structure MasterState (H : Type) where
  workers : List (Nat × H)
  workerLobbies : List (Nat × List PublicGameInfo)
  readyWorkers : List Nat
  started : Bool
  startEvents : Nat
  deriving Repr, DecidableEq

/-- The freshly constructed service: all maps empty, not started. -/
def initialMaster (H : Type) : MasterState H :=
  { workers := [], workerLobbies := [], readyWorkers := [], started := false,
    startEvents := 0 }

/-- `registerWorker(workerId, worker)`: stores the handle (and attaches the
message listener, which the event semantics below models). -/
def registerWorker {H : Type} (st : MasterState H) (workerId : Nat) (w : H) :
    MasterState H :=
  { st with workers := jsSet st.workers workerId w }

/-- `removeWorker(workerId)`: drops the handle, the last reported lobby list
and the ready mark. -/
def removeWorker {H : Type} (st : MasterState H) (workerId : Nat) :
    MasterState H :=
  { st with
    workers := jsDelete st.workers workerId
    workerLobbies := jsDelete st.workerLobbies workerId
    readyWorkers := jsErase st.readyWorkers workerId }

/-- `handleWorkerReady(workerId)`: mark ready; when the ready-set size reaches
`numWorkers` and the loops have not started, set the flag and start both
polling loops (recorded in `startEvents`). -/
def handleWorkerReady {H : Type} (numWorkers : Nat) (st : MasterState H)
    (workerId : Nat) : MasterState H :=
  let ready := jsAdd st.readyWorkers workerId
  if ready.length = numWorkers ∧ st.started = false then
    { st with
      readyWorkers := ready
      started := true
      startEvents := st.startEvents + 1 }
  else
    { st with readyWorkers := ready }

/-- The `lobbyList` branch of the per-worker message handler: a full
replacement of that worker's reported lobbies (`workerId` is the id the
handler closure was registered under). -/
def handleLobbyList {H : Type} (st : MasterState H) (workerId : Nat)
    (lobbies : List PublicGameInfo) : MasterState H :=
  { st with workerLobbies := jsSet st.workerLobbies workerId lobbies }

/-- The comparison used by `getAllLobbies`: the JS comparator
`(a, b) => a.startsAt! - b.startsAt`, i.e. ascending by `startsAt`. -/
def leStartsAt (a b : PublicGameInfo) : Bool :=
  a.startsAt ≤ b.startsAt

/-- `getAllLobbies()`: flatten all reported lobby lists (map insertion order)
and sort ascending by `startsAt` (JS `Array.prototype.sort` is stable). -/
def getAllLobbies {H : Type} (st : MasterState H) : List PublicGameInfo :=
  ((jsValues st.workerLobbies).flatten).mergeSort leStartsAt

/-! ### Scheduling (`maybeScheduleLobby`) -/

/-- Modelled from the spec: the deterministic worker-assignment hash
(`core/Util.simpleHash`, not under `src/`).  The spec requires only a pure,
deterministic hash of the identifier; we use a standard polynomial string
hash. -/
def simpleHash (s : String) : Nat :=
  s.data.foldl (fun h c => h * 31 + c.toNat) 0

/-- Modelled from the spec: `config.workerIndex(gameID)` — "a deterministic
hash of the identifier modulo worker count". -/
def workerIndex (numWorkers : Nat) (gameID : String) : Nat :=
  simpleHash gameID % numWorkers

/-- A `createGame` command as actually sent on a scheduling tick: the target
worker id, the handle it was sent on, and the message payload. -/
structure SentCreateGame (H : Type) where
  workerId : Nat
  handle : H
  gameID : String
  gameConfig : String
  startsAt : Int
  deriving Repr, DecidableEq

/-- `maybeScheduleLobby()`.  The outside world enters through parameters:
`now` is `Date.now()`, `gameID` is the value of `generateID()`, and `fetched`
is the result of `await this.playlist.gameConfig()` (`none` when the fetch
throws, which aborts the tick inside the polling loop).  Returns the list of
`createGame` commands sent during the tick. -/
def maybeScheduleLobby {H : Type} (numWorkers : Nat) (gameCreationRate : Int)
    (st : MasterState H) (now : Int) (gameID : String)
    (fetched : Option String) : List (SentCreateGame H) :=
  let lobbies := getAllLobbies st
  if lobbies.length ≥ 2 then []
  else
    let lastStart := lobbies.foldl (fun m pb => max m pb.startsAt) now
    let workerId := workerIndex numWorkers gameID
    match fetched with
    | none => []
    | some gameConfig =>
      match jsGet st.workers workerId with
      | none => []
      | some w =>
        [{ workerId := workerId, handle := w, gameID := gameID,
           gameConfig := gameConfig,
           startsAt := lastStart + gameCreationRate }]

/-- `broadcastLobbies()`: the `lobbiesBroadcast` view computed on a broadcast
tick (sent to every registered worker). -/
def broadcastView {H : Type} (st : MasterState H) (now : Int) : PublicGames :=
  { serverTime := now, games := getAllLobbies st }

/-! ### The IPC wire format

Inbound IPC payloads are JSON values validated with the schemas of
`IPCBridgeSchema` (zod).  The schema module itself is not under `src/`, so the
validators below are modelled from the spec (§4.1, §6): a discriminated union
keyed on a literal `type` field, rejecting everything else. -/

/-- A JSON value, the raw payload arriving on an IPC channel. -/
inductive Json where
  | jnull : Json
  | jbool : Bool → Json
  | jnum : Int → Json
  | jstr : String → Json
  | jarr : List Json → Json
  | jobj : List (String × Json) → Json

/-- Field lookup in a JSON object (first occurrence). -/
def jfield (fields : List (String × Json)) (k : String) : Option Json :=
  match fields with
  | [] => none
  | (k₁, v₁) :: rest => if k₁ = k then some v₁ else jfield rest k

/-- Messages a worker sends to the master (`WorkerMessageSchema`). -/
inductive WorkerMessage where
  | workerReady : Nat → WorkerMessage
  | lobbyList : List PublicGameInfo → WorkerMessage
  deriving Repr, DecidableEq

/-- Messages the master sends to a worker (`MasterMessageSchema`). -/
inductive MasterMessage where
  | lobbiesBroadcast : PublicGames → MasterMessage
  | createGame : String → String → Int → MasterMessage
  deriving Repr, DecidableEq

/-- Modelled from the spec: structural validation of one `PublicGameInfo`
object (`gameID` string, `numClients` number, `startsAt` number,
`gameConfig` opaque token). -/
def parsePublicGameInfo (j : Json) : Option PublicGameInfo :=
  match j with
  | Json.jobj fields =>
    match jfield fields "gameID", jfield fields "numClients",
          jfield fields "startsAt", jfield fields "gameConfig" with
    | some (Json.jstr gid), some (Json.jnum nc), some (Json.jnum sa),
      some (Json.jstr gc) =>
      if 0 ≤ nc then
        some { gameID := gid, numClients := nc.toNat, startsAt := sa,
               gameConfig := gc }
      else none
    | _, _, _, _ => none
  | _ => none

/-- Validate every element of a JSON array of lobby summaries. -/
def parseLobbyArray (js : List Json) : Option (List PublicGameInfo) :=
  match js with
  | [] => some []
  | j :: rest =>
    match parsePublicGameInfo j, parseLobbyArray rest with
    | some g, some gs => some (g :: gs)
    | _, _ => none

/-- Modelled from the spec: `WorkerMessageSchema.safeParse` — the
discriminated union of `workerReady` and `lobbyList`. -/
def parseWorkerMessage (j : Json) : Option WorkerMessage :=
  match j with
  | Json.jobj fields =>
    match jfield fields "type" with
    | some (Json.jstr "workerReady") =>
      match jfield fields "workerId" with
      | some (Json.jnum wid) =>
        if 0 ≤ wid then some (WorkerMessage.workerReady wid.toNat) else none
      | _ => none
    | some (Json.jstr "lobbyList") =>
      match jfield fields "lobbies" with
      | some (Json.jarr js) =>
        match parseLobbyArray js with
        | some gs => some (WorkerMessage.lobbyList gs)
        | none => none
      | _ => none
    | _ => none
  | _ => none

/-- Modelled from the spec: the `games` array of a `PublicGames` object. -/
def parsePublicGames (j : Json) : Option PublicGames :=
  match j with
  | Json.jobj fields =>
    match jfield fields "serverTime", jfield fields "games" with
    | some (Json.jnum t), some (Json.jarr js) =>
      match parseLobbyArray js with
      | some gs => some { serverTime := t, games := gs }
      | none => none
    | _, _ => none
  | _ => none

/-- Modelled from the spec: `MasterMessageSchema.safeParse` — the
discriminated union of `lobbiesBroadcast` and `createGame`. -/
def parseMasterMessage (j : Json) : Option MasterMessage :=
  match j with
  | Json.jobj fields =>
    match jfield fields "type" with
    | some (Json.jstr "lobbiesBroadcast") =>
      match jfield fields "publicGames" with
      | some pg =>
        match parsePublicGames pg with
        | some v => some (MasterMessage.lobbiesBroadcast v)
        | none => none
      | _ => none
    | some (Json.jstr "createGame") =>
      match jfield fields "gameID", jfield fields "gameConfig",
            jfield fields "startsAt" with
      | some (Json.jstr gid), some (Json.jstr gc), some (Json.jnum sa) =>
        some (MasterMessage.createGame gid gc sa)
      | _, _, _ => none
    | _ => none
  | _ => none

/-- JSON encoding of one lobby summary (inverse direction, used by
`JSON.stringify`). -/
def encodePublicGameInfo (g : PublicGameInfo) : Json :=
  Json.jobj [("gameID", Json.jstr g.gameID),
             ("numClients", Json.jnum (g.numClients : Int)),
             ("startsAt", Json.jnum g.startsAt),
             ("gameConfig", Json.jstr g.gameConfig)]

/-- `JSON.stringify(publicGames)`: the value serialized to every viewer
connection, modelled at the JSON-value level. -/
def encodePublicGames (pg : PublicGames) : Json :=
  Json.jobj [("serverTime", Json.jnum pg.serverTime),
             ("games", Json.jarr (pg.games.map encodePublicGameInfo))]

/-! ### Master-side raw message handler

The listener installed by `registerWorker` validates the raw payload with
`WorkerMessageSchema.safeParse`; on failure it logs and returns, otherwise
it dispatches on the discriminator.  `senderId` is the `workerId` the handler
closure was registered under (used by the `lobbyList` branch); the
`workerReady` branch uses the id carried in the message. -/
def masterOnMessage {H : Type} (numWorkers : Nat) (st : MasterState H)
    (senderId : Nat) (raw : Json) : MasterState H :=
  match parseWorkerMessage raw with
  | none => st
  | some (WorkerMessage.workerReady wid) => handleWorkerReady numWorkers st wid
  | some (WorkerMessage.lobbyList gs) => handleLobbyList st senderId gs

/-! ### Worker-side lobby owner (`WorkerLobbyService`)

The `GameManager` collaborator is not under `src/`; its three operations are
modelled from the spec (§4.3, §6): `game(id)`, `createGame(id, config,
startsAt)` and `publicLobbies()`. -/

/-- A live lobby held by the worker's game manager. -/
structure Lobby where
  gameID : String
  gameConfig : String
  startsAt : Int
  clients : List Nat
  isPublic : Bool
  deriving Repr, DecidableEq

/-- Modelled from the spec: `gm.game(id)` — the lobby with that id, if any. -/
def gmGame (games : List Lobby) (gameID : String) : Option Lobby :=
  games.find? (fun g => g.gameID = gameID)

/-- Modelled from the spec: `gm.createGame(id, config, startsAt)` — creates a
fresh (public, empty) lobby. -/
def gmCreateGame (games : List Lobby) (gameID gameConfig : String)
    (startsAt : Int) : List Lobby :=
  games ++ [{ gameID := gameID, gameConfig := gameConfig, startsAt := startsAt,
              clients := [], isPublic := true }]

/-- Modelled from the spec: `gm.publicLobbies().map(g => g.gameInfo())`
followed by the field projection in `sendMyLobbiesToMaster`
(`numClients = clients?.length ?? 0`). -/
def myPublicLobbies (games : List Lobby) : List PublicGameInfo :=
  (games.filter (fun g => g.isPublic)).map fun g =>
    { gameID := g.gameID, numClients := g.clients.length,
      startsAt := g.startsAt, gameConfig := g.gameConfig }

/-- One viewer connection in `lobbyClients`; `isOpen` is
`readyState === WebSocket.OPEN`. -/
structure ClientConn where
  cid : Nat
  isOpen : Bool
  deriving Repr, DecidableEq

/-- The worker-side state the IPC handler touches: the game manager's lobbies
and the set of attached viewer connections. -/
structure WorkerState where
  games : List Lobby
  lobbyClients : List ClientConn
  deriving Repr, DecidableEq

/-- The result of one worker IPC handler invocation: the new state, the
payloads pushed to viewer connections, and the messages sent to the master. -/
structure WorkerEffects where
  state : WorkerState
  viewerSends : List (Nat × Json)
  toMaster : List WorkerMessage

/-- `broadcastLobbiesToClients(publicGames)`: serialize the view once, send it
to every connection whose `readyState` is `OPEN`, and delete the others from
the fan-out set. -/
def broadcastLobbiesToClients (ws : WorkerState) (pg : PublicGames) :
    WorkerState × List (Nat × Json) :=
  let message := encodePublicGames pg
  let sends := (ws.lobbyClients.filter (fun c => c.isOpen)).map
    (fun c => (c.cid, message))
  ({ ws with lobbyClients := ws.lobbyClients.filter (fun c => c.isOpen) },
   sends)

/-- The dispatch of `setupIPCListener` on an already validated message:
`lobbiesBroadcast` fans out to viewers and piggybacks this worker's own
`lobbyList` back to the master; `createGame` no-ops when the game already
exists, otherwise creates it. -/
def workerHandleMessage (ws : WorkerState) : MasterMessage → WorkerEffects
  | MasterMessage.lobbiesBroadcast pg =>
    let out := broadcastLobbiesToClients ws pg
    { state := out.1
      viewerSends := out.2
      toMaster := [WorkerMessage.lobbyList (myPublicLobbies out.1.games)] }
  | MasterMessage.createGame gid gc sa =>
    match gmGame ws.games gid with
    | some _ => { state := ws, viewerSends := [], toMaster := [] }
    | none =>
      { state := { ws with games := gmCreateGame ws.games gid gc sa }
        viewerSends := []
        toMaster := [] }

/-- The full worker IPC listener: validate with `MasterMessageSchema`, log and
drop on failure, dispatch otherwise. -/
def workerOnMessage (ws : WorkerState) (raw : Json) : WorkerEffects :=
  match parseMasterMessage raw with
  | none => { state := ws, viewerSends := [], toMaster := [] }
  | some m => workerHandleMessage ws m

/-! ### Process supervisor (`startMaster` in `Master.ts`) -/

/-- A forked worker process handle: its pid and the environment it was forked
with (`WORKER_ID`, `ADMIN_TOKEN`, `INSTANCE_ID`).  `envWorkerId` is `none`
when the environment lacks `WORKER_ID`. -/
structure WorkerHandle where
  pid : Nat
  envWorkerId : Option Nat
  envAdminToken : String
  envInstanceId : String
  deriving Repr, DecidableEq

/-- The master process state around the lobby service: the captured
`ADMIN_TOKEN` / `INSTANCE_ID`, a pid source for `cluster.fork`, and the log. -/
structure SupervisorState where
  lob : MasterState WorkerHandle
  adminToken : String
  instanceId : String
  nextPid : Nat
  logs : List String
  deriving Repr, DecidableEq

/-- `cluster.fork({ WORKER_ID: wid, ADMIN_TOKEN, INSTANCE_ID })`. -/
def forkWorker (sup : SupervisorState) (wid : Nat) :
    WorkerHandle × SupervisorState :=
  ({ pid := sup.nextPid, envWorkerId := some wid,
     envAdminToken := sup.adminToken, envInstanceId := sup.instanceId },
   { sup with nextPid := sup.nextPid + 1 })

/-- The `cluster.on("exit", ...)` handler: read `WORKER_ID` from the dead
worker's environment (log and bail out when missing), deregister it, log the
exit code and signal, fork a replacement with the same identity and shared
parameters, and re-register it. -/
def handleWorkerExit (sup : SupervisorState) (w : WorkerHandle) (code : Int)
    (signal : String) : SupervisorState :=
  match w.envWorkerId with
  | none => { sup with logs := sup.logs ++ ["worker crashed could not find id"] }
  | some wid =>
    let sup1 : SupervisorState :=
      { sup with
        lob := removeWorker sup.lob wid
        logs := sup.logs ++
          ["Worker " ++ toString wid ++ " (PID: " ++ toString w.pid ++
             ") died with code: " ++ toString code ++ " and signal: " ++ signal,
           "Restarting worker " ++ toString wid ++ "..."] }
    let out := forkWorker sup1 wid
    { out.2 with
      lob := registerWorker out.2.lob wid out.1
      logs := out.2.logs ++ ["Restarted worker " ++ toString wid] }

/-! ### Event traces against the coordinator

One event is one handler invocation on the master's event loop: a
`registerWorker` / `removeWorker` call from the supervisor, or a validated
`workerReady` / `lobbyList` message from a worker.  Handles are plain
tokens here. -/

inductive MEvent where
  | register : Nat → Nat → MEvent
  | remove : Nat → MEvent
  | ready : Nat → MEvent
  | reportLobbies : Nat → List PublicGameInfo → MEvent
  deriving Repr, DecidableEq

/-- One coordinator step. -/
def stepMaster (numWorkers : Nat) (st : MasterState Nat) : MEvent → MasterState Nat
  | MEvent.register id h => registerWorker st id h
  | MEvent.remove id => removeWorker st id
  | MEvent.ready id => handleWorkerReady numWorkers st id
  | MEvent.reportLobbies id gs => handleLobbyList st id gs

/-- Run a trace of events from a state. -/
def runMaster (numWorkers : Nat) (st : MasterState Nat) (tr : List MEvent) :
    MasterState Nat :=
  tr.foldl (stepMaster numWorkers) st

/-- An event is admissible in a state: ids denote configured workers
(`0..numWorkers-1`), and a `lobbyList` report can only come from a worker
whose handle is currently registered (the listener belongs to a live,
registered process). -/
def okEvent (numWorkers : Nat) (st : MasterState Nat) : MEvent → Bool
  | MEvent.register id _ => id < numWorkers
  | MEvent.remove id => id < numWorkers
  | MEvent.ready id => id < numWorkers
  | MEvent.reportLobbies id _ =>
    decide (id < numWorkers) && (jsGet st.workers id).isSome

/-- Admissibility of a whole trace from a state. -/
def validFrom (numWorkers : Nat) (st : MasterState Nat) : List MEvent → Bool
  | [] => true
  | e :: tr =>
    okEvent numWorkers st e && validFrom numWorkers (stepMaster numWorkers st e) tr

/-! ### The specified aggregate (C1), written from the spec's words

"The most recently reported lobby list of each currently registered worker,
and nothing from any worker removed before the computation": scan the trace
backwards from its end; the first `lobbyList` report for a worker gives its
contribution, a removal encountered first cancels it. -/

/-- The most recent report for `id`, scanning the *reversed* trace: the
first report wins, a removal hit first means the worker contributes
nothing. -/
def lastReportedIn : List MEvent → Nat → Option (List PublicGameInfo)
  | [], _ => none
  | MEvent.reportLobbies j gs :: rest, id =>
    if j = id then some gs else lastReportedIn rest id
  | MEvent.remove j :: rest, id =>
    if j = id then none else lastReportedIn rest id
  | _ :: rest, id => lastReportedIn rest id

/-- Whether `id` is currently registered, scanning the *reversed* trace: a
registration seen first means yes, a removal seen first means no. -/
def isRegisteredIn : List MEvent → Nat → Bool
  | [], _ => false
  | MEvent.register j _ :: rest, id =>
    if j = id then true else isRegisteredIn rest id
  | MEvent.remove j :: rest, id =>
    if j = id then false else isRegisteredIn rest id
  | _ :: rest, id => isRegisteredIn rest id

/-- The aggregate the spec describes: concatenate, over the configured worker
identities, the most recent report of each currently registered worker. -/
def specAggregate (numWorkers : Nat) (tr : List MEvent) :
    List PublicGameInfo :=
  ((List.range numWorkers).filterMap fun id =>
    if isRegisteredIn tr.reverse id then lastReportedIn tr.reverse id
    else none).flatten

/-- Whether an event is a `removeWorker` call. -/
def isRemoveEvent : MEvent → Bool
  | MEvent.remove _ => true
  | _ => false

/-! ### Basic lemmas about the JS map / set embedding -/

theorem jsGet_jsSet {α : Type} (m : List (Nat × α)) (k k' : Nat) (v : α) :
    jsGet (jsSet m k v) k' = if k = k' then some v else jsGet m k' := by
  induction m with
  | nil =>
    by_cases h : k = k' <;> simp [jsSet, jsGet, h]
  | cons e rest ih =>
    obtain ⟨k₁, v₁⟩ := e
    simp only [jsSet]
    by_cases h1 : k₁ = k
    · subst h1
      simp only [if_pos rfl]
      by_cases h2 : k₁ = k' <;> simp [jsGet, h2]
    · simp only [if_neg h1]
      by_cases h2 : k₁ = k'
      · subst h2
        have hk : ¬ (k = k₁) := fun h => h1 h.symm
        simp [jsGet, hk]
      · simp [jsGet, h2, ih]

theorem jsGet_jsDelete {α : Type} (m : List (Nat × α)) (k k' : Nat) :
    jsGet (jsDelete m k) k' = if k = k' then none else jsGet m k' := by
  induction m with
  | nil => by_cases h : k = k' <;> simp [jsDelete, jsGet, h]
  | cons e rest ih =>
    obtain ⟨k₁, v₁⟩ := e
    by_cases h1 : k₁ = k
    · subst h1
      have hd : jsDelete ((k₁, v₁) :: rest) k₁ = jsDelete rest k₁ := by
        simp [jsDelete]
      rw [hd, ih]
      by_cases h2 : k₁ = k' <;> simp [jsGet, h2]
    · have hd : jsDelete ((k₁, v₁) :: rest) k = (k₁, v₁) :: jsDelete rest k := by
        simp [jsDelete, h1]
      rw [hd]
      by_cases h2 : k₁ = k'
      · subst h2
        have hk : ¬ (k = k₁) := fun h => h1 h.symm
        simp [jsGet, hk]
      · simp [jsGet, h2, ih]

/-- The keys of an association list. -/
def mapKeys {α : Type} (m : List (Nat × α)) : List Nat :=
  m.map Prod.fst

theorem mem_mapKeys_cons {α : Type} (k₁ : Nat) (v₁ : α) (rest : List (Nat × α))
    (j : Nat) : j ∈ mapKeys ((k₁, v₁) :: rest) ↔ j = k₁ ∨ j ∈ mapKeys rest := by
  show j ∈ k₁ :: mapKeys rest ↔ _
  exact List.mem_cons

theorem mapKeys_jsSet_of_mem {α : Type} (m : List (Nat × α)) (k : Nat) (v : α)
    (h : k ∈ mapKeys m) : mapKeys (jsSet m k v) = mapKeys m := by
  induction m with
  | nil => simp [mapKeys] at h
  | cons e rest ih =>
    obtain ⟨k₁, v₁⟩ := e
    by_cases h1 : k₁ = k
    · subst h1; simp [jsSet, mapKeys]
    · rw [mem_mapKeys_cons] at h
      rcases h with h | h
      · exact absurd h.symm h1
      · show mapKeys (jsSet ((k₁, v₁) :: rest) k v) = _
        simp only [jsSet, if_neg h1]
        show mapKeys ((k₁, v₁) :: jsSet rest k v) = mapKeys ((k₁, v₁) :: rest)
        simp only [mapKeys, List.map_cons]
        rw [show (jsSet rest k v).map Prod.fst = mapKeys (jsSet rest k v) from rfl,
            ih h]
        rfl

theorem mapKeys_jsSet_of_not_mem {α : Type} (m : List (Nat × α)) (k : Nat)
    (v : α) (h : k ∉ mapKeys m) :
    mapKeys (jsSet m k v) = mapKeys m ++ [k] := by
  induction m with
  | nil => simp [jsSet, mapKeys]
  | cons e rest ih =>
    obtain ⟨k₁, v₁⟩ := e
    rw [mem_mapKeys_cons] at h
    push_neg at h
    by_cases h1 : k₁ = k
    · exact absurd h1.symm h.1
    · simp only [jsSet, if_neg h1]
      show mapKeys ((k₁, v₁) :: jsSet rest k v) = mapKeys ((k₁, v₁) :: rest) ++ [k]
      simp only [mapKeys, List.map_cons, List.cons_append]
      rw [show (jsSet rest k v).map Prod.fst = mapKeys (jsSet rest k v) from rfl,
          ih h.2]
      rfl

theorem mapKeys_jsDelete {α : Type} (m : List (Nat × α)) (k : Nat) :
    mapKeys (jsDelete m k) = (mapKeys m).filter (fun j => j ≠ k) := by
  induction m with
  | nil => simp [jsDelete, mapKeys]
  | cons e rest ih =>
    obtain ⟨k₁, v₁⟩ := e
    by_cases h1 : k₁ = k <;>
      simp [jsDelete, mapKeys, h1] at ih ⊢ <;> simpa [jsDelete, mapKeys] using ih

theorem nodup_mapKeys_jsSet {α : Type} (m : List (Nat × α)) (k : Nat) (v : α)
    (h : (mapKeys m).Nodup) : (mapKeys (jsSet m k v)).Nodup := by
  by_cases hm : k ∈ mapKeys m
  · rw [mapKeys_jsSet_of_mem m k v hm]; exact h
  · rw [mapKeys_jsSet_of_not_mem m k v hm]
    simp [List.nodup_append, h, hm]

theorem nodup_mapKeys_jsDelete {α : Type} (m : List (Nat × α)) (k : Nat)
    (h : (mapKeys m).Nodup) : (mapKeys (jsDelete m k)).Nodup := by
  rw [mapKeys_jsDelete]; exact h.filter _

theorem mem_mapKeys_jsSet {α : Type} (m : List (Nat × α)) (k j : Nat) (v : α) :
    j ∈ mapKeys (jsSet m k v) → j ∈ mapKeys m ∨ j = k := by
  by_cases hm : k ∈ mapKeys m
  · rw [mapKeys_jsSet_of_mem m k v hm]; exact fun h => Or.inl h
  · rw [mapKeys_jsSet_of_not_mem m k v hm]; intro h
    rcases List.mem_append.mp h with h | h
    · exact Or.inl h
    · simp at h; exact Or.inr h

theorem mem_mapKeys_jsDelete {α : Type} (m : List (Nat × α)) (k j : Nat) :
    j ∈ mapKeys (jsDelete m k) → j ∈ mapKeys m := by
  rw [mapKeys_jsDelete]; intro h
  exact (List.mem_filter.mp h).1

theorem jsGet_isSome_iff_mem_mapKeys {α : Type} (m : List (Nat × α)) (k : Nat) :
    (jsGet m k).isSome = true ↔ k ∈ mapKeys m := by
  induction m with
  | nil => simp [jsGet, mapKeys]
  | cons e rest ih =>
    obtain ⟨k₁, v₁⟩ := e
    rw [mem_mapKeys_cons]
    by_cases h1 : k₁ = k
    · subst h1; simp [jsGet]
    · have hk : ¬ (k = k₁) := fun h => h1 h.symm
      simp [jsGet, h1, hk, ih]

theorem mem_jsAdd (s : List Nat) (k j : Nat) :
    j ∈ jsAdd s k ↔ j ∈ s ∨ j = k := by
  by_cases h : k ∈ s
  · simp [jsAdd, h]
    intro hj; subst hj; exact h
  · simp [jsAdd, h]

theorem nodup_jsAdd (s : List Nat) (k : Nat) (h : s.Nodup) :
    (jsAdd s k).Nodup := by
  by_cases hk : k ∈ s <;> simp [jsAdd, hk, List.nodup_append, h]

theorem length_jsAdd_le (s : List Nat) (k : Nat) :
    (jsAdd s k).length ≤ s.length + 1 := by
  by_cases hk : k ∈ s
  · simp only [jsAdd, if_pos hk]
    omega
  · simp only [jsAdd, if_neg hk, List.length_append, List.length_singleton]
    omega

theorem mem_jsErase (s : List Nat) (k j : Nat) :
    j ∈ jsErase s k ↔ j ∈ s ∧ j ≠ k := by
  simp [jsErase]

theorem nodup_jsErase (s : List Nat) (k : Nat) (h : s.Nodup) :
    (jsErase s k).Nodup := h.filter _

theorem length_jsErase_le (s : List Nat) (k : Nat) :
    (jsErase s k).length ≤ s.length :=
  List.length_filter_le _ _

/-! ### C10: re-registration replaces only the handle -/

/-- C10: calling `registerWorker(id, handle)` for an identity that is already
registered replaces only the stored handle; the previously reported lobby
list in `workerLobbies`, the ready-set membership, the start flag and every
other worker's handle are left unchanged. -/
theorem registerWorker_replaces_only_handle {H : Type} (st : MasterState H)
    (id : Nat) (h0 h : H) (hreg : jsGet st.workers id = some h0) :
    jsGet (registerWorker st id h).workers id = some h
    ∧ (registerWorker st id h).workerLobbies = st.workerLobbies
    ∧ (registerWorker st id h).readyWorkers = st.readyWorkers
    ∧ (registerWorker st id h).started = st.started
    ∧ (∀ j, j ≠ id → jsGet (registerWorker st id h).workers j = jsGet st.workers j) := by
  refine ⟨?_, rfl, rfl, rfl, ?_⟩
  · simp [registerWorker, jsGet_jsSet]
  · intro j hj
    have : ¬ (id = j) := fun h => hj h.symm
    simp [registerWorker, jsGet_jsSet, this]

/-- Witness for C10 at a concrete state. -/
theorem registerWorker_replaces_only_handle_witness :
    jsGet (registerWorker (registerWorker (initialMaster Nat) 0 7) 0 9).workers 0 = some 9
    ∧ (registerWorker (registerWorker (initialMaster Nat) 0 7) 0 9).workerLobbies
        = (registerWorker (initialMaster Nat) 0 7).workerLobbies := by
  have h := registerWorker_replaces_only_handle
    (registerWorker (initialMaster Nat) 0 7) 0 7 9 (by rfl)
  exact ⟨h.1, h.2.1⟩

/-! ### C4: `createGame` is idempotent on the worker -/

/-- C4: delivering the same `createGame{gameID}` message twice results in
exactly one lobby with that id: the first delivery creates it, the second
finds it and makes no state change; and any delivery for an id that already
exists is a no-op. -/
theorem createGame_idempotent (ws : WorkerState) (gid gc : String) (sa : Int)
    (hfresh : gmGame ws.games gid = none) :
    ((workerHandleMessage
        (workerHandleMessage ws (MasterMessage.createGame gid gc sa)).state
        (MasterMessage.createGame gid gc sa)).state.games.countP
      (fun g => g.gameID = gid)) = 1
    ∧ (workerHandleMessage
        (workerHandleMessage ws (MasterMessage.createGame gid gc sa)).state
        (MasterMessage.createGame gid gc sa)).state
      = (workerHandleMessage ws (MasterMessage.createGame gid gc sa)).state
    ∧ (∀ ws2 : WorkerState, (gmGame ws2.games gid).isSome = true →
        (workerHandleMessage ws2 (MasterMessage.createGame gid gc sa)).state = ws2) := by
  have hnoop : ∀ ws2 : WorkerState, (gmGame ws2.games gid).isSome = true →
      (workerHandleMessage ws2 (MasterMessage.createGame gid gc sa)).state = ws2 := by
    intro ws2 h2
    rcases Option.isSome_iff_exists.mp h2 with ⟨g, hg⟩
    simp [workerHandleMessage, hg]
  have hzero : ws.games.countP (fun g => g.gameID = gid) = 0 := by
    rw [List.countP_eq_zero]
    intro g hg
    have := List.find?_eq_none.mp hfresh g hg
    simpa using this
  have hstep1 : (workerHandleMessage ws (MasterMessage.createGame gid gc sa)).state
      = { ws with games := gmCreateGame ws.games gid gc sa } := by
    simp [workerHandleMessage, hfresh]
  have hsome : (gmGame (gmCreateGame ws.games gid gc sa) gid).isSome = true := by
    rw [Option.isSome_iff_exists]
    have : gmGame (gmCreateGame ws.games gid gc sa) gid ≠ none := by
      intro hnone
      have := List.find?_eq_none.mp hnone
        { gameID := gid, gameConfig := gc, startsAt := sa,
          clients := [], isPublic := true }
        (by simp [gmCreateGame])
      simp at this
    rcases Option.ne_none_iff_exists.mp this with ⟨g, hg⟩
    exact ⟨g, hg.symm⟩
  have hstep2 := hnoop { ws with games := gmCreateGame ws.games gid gc sa }
    (by simpa using hsome)
  refine ⟨?_, ?_, hnoop⟩
  · rw [hstep1, hstep2]
    show (gmCreateGame ws.games gid gc sa).countP (fun g => g.gameID = gid) = 1
    simp [gmCreateGame, List.countP_append, hzero]
  · rw [hstep1, hstep2]

/-- Witness for C4: a fresh worker state and one concrete message. -/
theorem createGame_idempotent_witness :
    gmGame (WorkerState.mk [] []).games "g1" = none
    ∧ ((workerHandleMessage
        (workerHandleMessage (WorkerState.mk [] [])
          (MasterMessage.createGame "g1" "cfg" 5)).state
        (MasterMessage.createGame "g1" "cfg" 5)).state.games.countP
      (fun g => g.gameID = "g1")) = 1 :=
  ⟨rfl, (createGame_idempotent (WorkerState.mk [] []) "g1" "cfg" 5 rfl).1⟩

/-! ### C5: malformed messages are dropped without any state change -/

/-- C5: a structurally invalid payload fed to the master's per-worker message
handler and to the worker's IPC handler is dropped: neither handler changes
any internal state, sends anything, or faults (the handlers are total). -/
theorem malformed_message_no_state_change {H : Type} (numWorkers : Nat)
    (st : MasterState H) (senderId : Nat) (ws : WorkerState) (raw : Json)
    (hm : parseWorkerMessage raw = none) (hw : parseMasterMessage raw = none) :
    masterOnMessage numWorkers st senderId raw = st
    ∧ (workerOnMessage ws raw).state = ws
    ∧ (workerOnMessage ws raw).viewerSends = []
    ∧ (workerOnMessage ws raw).toMaster = [] := by
  refine ⟨?_, ?_, ?_, ?_⟩ <;> simp [masterOnMessage, workerOnMessage, hm, hw]

/-- Witness for C5: a payload with an unknown discriminator. -/
theorem malformed_message_no_state_change_witness :
    parseWorkerMessage (Json.jobj [("type", Json.jstr "evil")]) = none
    ∧ masterOnMessage 2 (initialMaster Nat) 0
        (Json.jobj [("type", Json.jstr "evil")]) = initialMaster Nat
    ∧ (workerOnMessage (WorkerState.mk [] [])
        (Json.jobj [("type", Json.jstr "evil")])).state = WorkerState.mk [] [] := by
  have h := malformed_message_no_state_change 2 (initialMaster Nat) 0
    (WorkerState.mk [] []) (Json.jobj [("type", Json.jstr "evil")]) rfl rfl
  exact ⟨rfl, h.1, h.2.1⟩

/-! ### C9: supervisor restarts a dead worker under the same identity -/

/-- C9: on a worker exit whose environment carries `WORKER_ID`, the exit
handler deregisters that identity from the coordinator, logs the exit code
and signal, and forks and registers a replacement handle carrying the same
`WORKER_ID` and the same `ADMIN_TOKEN` / `INSTANCE_ID`. -/
theorem worker_exit_restarts_same_identity (sup : SupervisorState)
    (w : WorkerHandle) (code : Int) (signal : String) (wid : Nat)
    (hid : w.envWorkerId = some wid) :
    ∃ nw : WorkerHandle,
      (handleWorkerExit sup w code signal).lob
        = registerWorker (removeWorker sup.lob wid) wid nw
      ∧ nw.envWorkerId = some wid
      ∧ nw.envAdminToken = sup.adminToken
      ∧ nw.envInstanceId = sup.instanceId
      ∧ ("Worker " ++ toString wid ++ " (PID: " ++ toString w.pid ++
           ") died with code: " ++ toString code ++ " and signal: " ++ signal)
          ∈ (handleWorkerExit sup w code signal).logs := by
  refine ⟨{ pid := sup.nextPid, envWorkerId := some wid,
            envAdminToken := sup.adminToken, envInstanceId := sup.instanceId },
          ?_, rfl, rfl, rfl, ?_⟩
  · simp [handleWorkerExit, hid, forkWorker]
  · simp [handleWorkerExit, hid, forkWorker]

/-- Witness for C9 at a concrete supervisor state. -/
theorem worker_exit_restarts_same_identity_witness :
    ∃ nw : WorkerHandle,
      (handleWorkerExit
        (SupervisorState.mk (initialMaster WorkerHandle) "tok" "inst" 5 [])
        (WorkerHandle.mk 3 (some 1) "tok" "inst") 1 "SIGKILL").lob
        = registerWorker
            (removeWorker (initialMaster WorkerHandle) 1) 1 nw
      ∧ nw.envWorkerId = some 1
      ∧ nw.envAdminToken = "tok"
      ∧ nw.envInstanceId = "inst" := by
  rcases worker_exit_restarts_same_identity
    (SupervisorState.mk (initialMaster WorkerHandle) "tok" "inst" 5 [])
    (WorkerHandle.mk 3 (some 1) "tok" "inst") 1 "SIGKILL" 1 rfl with
    ⟨nw, h1, h2, h3, h4, _⟩
  exact ⟨nw, h1, h2, h3, h4⟩

/-! ### C8: `lobbiesBroadcast` fan-out and piggybacked `lobbyList` -/

/-- C8: on a `lobbiesBroadcast` message, the worker pushes the serialized
`GlobalLobbyView` it received to every attached viewer connection (all of
which are live here; dead ones are instead removed from the fan-out set), and
in the same handler reports its own current public lobby list back to the
master as a `lobbyList` message. -/
theorem lobbiesBroadcast_fanout_and_piggyback (ws : WorkerState)
    (pg : PublicGames)
    (hopen : ∀ c ∈ ws.lobbyClients, c.isOpen = true) :
    (workerHandleMessage ws (MasterMessage.lobbiesBroadcast pg)).viewerSends
      = ws.lobbyClients.map (fun c => (c.cid, encodePublicGames pg))
    ∧ (workerHandleMessage ws (MasterMessage.lobbiesBroadcast pg)).toMaster
      = [WorkerMessage.lobbyList (myPublicLobbies ws.games)]
    ∧ (workerHandleMessage ws (MasterMessage.lobbiesBroadcast pg)).state.games
      = ws.games := by
  have hfilter : ws.lobbyClients.filter (fun c => c.isOpen) = ws.lobbyClients :=
    List.filter_eq_self.mpr hopen
  refine ⟨?_, ?_, ?_⟩ <;>
    simp [workerHandleMessage, broadcastLobbiesToClients, hfilter]

/-- Witness for C8: one open viewer connection and one lobby. -/
theorem lobbiesBroadcast_fanout_and_piggyback_witness :
    (workerHandleMessage
        (WorkerState.mk [Lobby.mk "g1" "cfg" 7 [] true] [ClientConn.mk 4 true])
        (MasterMessage.lobbiesBroadcast (PublicGames.mk 9 []))).viewerSends
      = [(4, encodePublicGames (PublicGames.mk 9 []))]
    ∧ (workerHandleMessage
        (WorkerState.mk [Lobby.mk "g1" "cfg" 7 [] true] [ClientConn.mk 4 true])
        (MasterMessage.lobbiesBroadcast (PublicGames.mk 9 []))).toMaster
      = [WorkerMessage.lobbyList [PublicGameInfo.mk "g1" 0 7 "cfg"]] := by
  have h := lobbiesBroadcast_fanout_and_piggyback
    (WorkerState.mk [Lobby.mk "g1" "cfg" 7 [] true] [ClientConn.mk 4 true])
    (PublicGames.mk 9 [])
    (by intro c hc; simp at hc; rw [hc])
  refine ⟨?_, ?_⟩
  · rw [h.1]; rfl
  · rw [h.2.1]; rfl

/-! ### The scheduling tick: shared characterization -/

/-- Any command sent by `maybeScheduleLobby` is the unique command of the
tick: the aggregate was under the threshold, the playlist fetch succeeded,
the target worker was registered, and the command's fields are as computed
in the source. -/
theorem mem_maybeScheduleLobby {H : Type} (N : Nat) (rate : Int)
    (st : MasterState H) (now : Int) (gid : String) (fetched : Option String)
    (cmd : SentCreateGame H)
    (hsent : cmd ∈ maybeScheduleLobby N rate st now gid fetched) :
    (getAllLobbies st).length < 2
    ∧ ∃ gc, fetched = some gc
      ∧ jsGet st.workers (workerIndex N gid) = some cmd.handle
      ∧ cmd = { workerId := workerIndex N gid, handle := cmd.handle,
                gameID := gid, gameConfig := gc,
                startsAt := (getAllLobbies st).foldl
                  (fun m pb => max m pb.startsAt) now + rate }
      ∧ maybeScheduleLobby N rate st now gid fetched = [cmd] := by
  simp only [maybeScheduleLobby] at hsent
  by_cases hlen : (getAllLobbies st).length ≥ 2
  · rw [if_pos hlen] at hsent
    simp at hsent
  · rw [if_neg hlen] at hsent
    refine ⟨Nat.lt_of_not_le hlen, ?_⟩
    cases fetched with
    | none => simp at hsent
    | some gc =>
      simp only at hsent
      cases hget : jsGet st.workers (workerIndex N gid) with
      | none =>
        rw [hget] at hsent
        simp at hsent
      | some w =>
        rw [hget] at hsent
        simp at hsent
        refine ⟨gc, rfl, ?_, ?_, ?_⟩
        · rw [hsent]
        · simp [hsent]
        · simp only [maybeScheduleLobby, if_neg hlen]
          rw [hget]
          simp [hsent]

/-! ### C2: send count of a scheduling tick -/

/-- A coordinator with no reported lobbies has an empty aggregate. -/
theorem getAllLobbies_empty {H : Type} (st : MasterState H)
    (h : st.workerLobbies = []) : getAllLobbies st = [] := by
  simp [getAllLobbies, h, jsValues]

/-- C2 counterexample: in the empty coordinator state the aggregate count is
below 2, yet the scheduling tick sends zero `createGame` commands (the target
worker is not registered), refuting "never zero". -/
theorem scheduling_tick_zero_sends_cex :
    (getAllLobbies (initialMaster Nat)).length < 2
    ∧ maybeScheduleLobby 2 100 (initialMaster Nat) 0 "g" (some "cfg") = [] := by
  have h0 : getAllLobbies (initialMaster Nat) = [] :=
    getAllLobbies_empty _ rfl
  constructor
  · rw [h0]; decide
  · simp [maybeScheduleLobby, h0, initialMaster, jsGet]

/-- C2 amended: a scheduling tick never sends more than one `createGame`; it
sends none when the aggregate count is at least 2; and when the count is
below 2 it sends exactly one provided the playlist fetch succeeds and the
target worker (hash of the generated id mod worker count) is registered. -/
theorem scheduling_tick_send_count {H : Type} (N : Nat) (rate : Int)
    (st : MasterState H) (now : Int) (gid : String) (fetched : Option String) :
    ((getAllLobbies st).length ≥ 2 →
      maybeScheduleLobby N rate st now gid fetched = [])
    ∧ (maybeScheduleLobby N rate st now gid fetched).length ≤ 1
    ∧ (∀ gc, (getAllLobbies st).length < 2 → fetched = some gc →
        (jsGet st.workers (workerIndex N gid)).isSome = true →
        (maybeScheduleLobby N rate st now gid fetched).length = 1) := by
  refine ⟨?_, ?_, ?_⟩
  · intro h
    simp [maybeScheduleLobby, if_pos h]
  · simp only [maybeScheduleLobby]
    split
    · simp
    · cases fetched with
      | none => simp
      | some gc =>
        simp only
        cases jsGet st.workers (workerIndex N gid) <;> simp
  · intro gc hlen hf hg
    rcases Option.isSome_iff_exists.mp hg with ⟨w, hw⟩
    subst hf
    simp only [maybeScheduleLobby, if_neg (Nat.not_le.mpr hlen)]
    rw [hw]
    rfl

/-- Witness for C2 (amended) at a concrete state with a registered worker. -/
theorem scheduling_tick_send_count_witness :
    (getAllLobbies (registerWorker (initialMaster Nat) 0 42)).length < 2
    ∧ (maybeScheduleLobby 1 100 (registerWorker (initialMaster Nat) 0 42)
        0 "g" (some "cfg")).length = 1 := by
  have h0 : getAllLobbies (registerWorker (initialMaster Nat) 0 42) = [] :=
    getAllLobbies_empty _ rfl
  have hlen : (getAllLobbies (registerWorker (initialMaster Nat) 0 42)).length < 2 := by
    rw [h0]; decide
  refine ⟨hlen, ?_⟩
  refine (scheduling_tick_send_count 1 100 (registerWorker (initialMaster Nat) 0 42)
    0 "g" (some "cfg")).2.2 "cfg" hlen rfl ?_
  simp [workerIndex, Nat.mod_one, registerWorker, initialMaster, jsSet, jsGet]

/-! ### C6: fields and routing of a scheduled lobby -/

/-- C6: when a scheduling tick creates a lobby, the command carries the
freshly generated identifier, its `startsAt` is
`max(startsAt of every aggregated lobby, now) + gameCreationRate`, it is the
only command of the tick, and it goes to the worker whose index is the
deterministic hash of the identifier modulo the worker count — and that
worker's registered handle is the one used. -/
theorem scheduled_lobby_fields_and_routing {H : Type} (N : Nat) (rate : Int)
    (st : MasterState H) (now : Int) (gid : String) (fetched : Option String)
    (cmd : SentCreateGame H)
    (hsent : cmd ∈ maybeScheduleLobby N rate st now gid fetched) :
    cmd.gameID = gid
    ∧ cmd.workerId = simpleHash gid % N
    ∧ cmd.startsAt
        = ((getAllLobbies st).map (fun g => g.startsAt)).foldl max now + rate
    ∧ jsGet st.workers (workerIndex N gid) = some cmd.handle
    ∧ maybeScheduleLobby N rate st now gid fetched = [cmd]
    ∧ (getAllLobbies st).length < 2 := by
  rcases mem_maybeScheduleLobby N rate st now gid fetched cmd hsent with
    ⟨hlen, gc, hf, hget, hcmd, huniq⟩
  refine ⟨by rw [hcmd], by rw [hcmd]; rfl, ?_, hget, huniq, hlen⟩
  rw [hcmd]
  show ((getAllLobbies st).foldl (fun m pb => max m pb.startsAt) now) + rate = _
  rw [List.foldl_map]

/-- Witness for C6: one registered worker, empty aggregate. -/
theorem scheduled_lobby_fields_and_routing_witness :
    (SentCreateGame.mk 0 (42 : Nat) "g" "cfg" 100
        ∈ maybeScheduleLobby 1 100 (registerWorker (initialMaster Nat) 0 42)
            0 "g" (some "cfg"))
    ∧ (SentCreateGame.mk 0 (42 : Nat) "g" "cfg" 100).startsAt
        = ((getAllLobbies (registerWorker (initialMaster Nat) 0 42)).map
            (fun g => g.startsAt)).foldl max 0 + 100 := by
  have h0 : getAllLobbies (registerWorker (initialMaster Nat) 0 42) = [] :=
    getAllLobbies_empty _ rfl
  have h1 : jsGet (registerWorker (initialMaster Nat) 0 42).workers
      (workerIndex 1 "g") = some 42 := by
    simp [workerIndex, Nat.mod_one, registerWorker, initialMaster, jsSet, jsGet]
  have hs : maybeScheduleLobby 1 100 (registerWorker (initialMaster Nat) 0 42)
      0 "g" (some "cfg") = [SentCreateGame.mk 0 (42 : Nat) "g" "cfg" 100] := by
    simp only [maybeScheduleLobby, h0, h1]
    simp [workerIndex, Nat.mod_one]
  have hsent : SentCreateGame.mk 0 (42 : Nat) "g" "cfg" 100
      ∈ maybeScheduleLobby 1 100 (registerWorker (initialMaster Nat) 0 42)
          0 "g" (some "cfg") := by
    rw [hs]; exact List.mem_singleton.mpr rfl
  refine ⟨hsent, ?_⟩
  exact (scheduled_lobby_fields_and_routing 1 100
    (registerWorker (initialMaster Nat) 0 42) 0 "g" (some "cfg")
    (SentCreateGame.mk 0 (42 : Nat) "g" "cfg" 100) hsent).2.2.1

/-! ### C7: deregister then re-register under the same identity -/

/-- C7: after `removeWorker(k)` followed by `registerWorker(k, newHandle)`,
every `createGame` command for a gameID hashing to `k` is sent on the new
handle, and the aggregate computed on the next broadcast tick contains none
of the lobbies the old worker had reported (given that no other worker
reports any of them — lobbies are owned by exactly one worker). -/
theorem reregistered_worker_new_handle_and_clean_aggregate {H : Type}
    (N : Nat) (rate : Int) (st : MasterState H) (k : Nat) (nh : H)
    (oldL : List PublicGameInfo)
    (hold : jsGet st.workerLobbies k = some oldL)
    (hdisj : ∀ e ∈ st.workerLobbies, e.1 ≠ k → ∀ g ∈ e.2, g ∉ oldL) :
    (∀ now gid fetched (cmd : SentCreateGame H), workerIndex N gid = k →
        cmd ∈ maybeScheduleLobby N rate (registerWorker (removeWorker st k) k nh)
          now gid fetched →
        cmd.handle = nh)
    ∧ (∀ g ∈ getAllLobbies (registerWorker (removeWorker st k) k nh),
        g ∉ oldL) := by
  constructor
  · intro now gid fetched cmd hk hsent
    rcases mem_maybeScheduleLobby N rate _ now gid fetched cmd hsent with
      ⟨-, gc, -, hget, -, -⟩
    rw [hk] at hget
    have : jsGet (registerWorker (removeWorker st k) k nh).workers k = some nh := by
      show jsGet (jsSet (jsDelete st.workers k) k nh) k = some nh
      rw [jsGet_jsSet]
      simp
    rw [this] at hget
    exact (Option.some_injective _ hget).symm
  · intro g hg
    have hwl : (registerWorker (removeWorker st k) k nh).workerLobbies
        = jsDelete st.workerLobbies k := rfl
    rw [getAllLobbies, List.mem_mergeSort, hwl] at hg
    rcases List.mem_flatten.mp hg with ⟨L, hL, hgL⟩
    rcases List.mem_map.mp hL with ⟨e, he, rfl⟩
    have hmem : e ∈ st.workerLobbies ∧ e.1 ≠ k := by
      have := List.mem_filter.mp he
      refine ⟨this.1, ?_⟩
      simpa using this.2
    exact hdisj e hmem.1 hmem.2 g hgL

/-- Witness for C7: one worker whose old report is gone after the cycle. -/
theorem reregistered_worker_witness :
    PublicGameInfo.mk "a" 0 1 "c"
      ∉ getAllLobbies (registerWorker
          (removeWorker
            (MasterState.mk [(0, (5 : Nat))] [(0, [PublicGameInfo.mk "a" 0 1 "c"])]
              [] false 0) 0) 0 9) := by
  intro hmem
  exact (reregistered_worker_new_handle_and_clean_aggregate 1 100
    (MasterState.mk [(0, (5 : Nat))] [(0, [PublicGameInfo.mk "a" 0 1 "c"])]
      [] false 0) 0 9 [PublicGameInfo.mk "a" 0 1 "c"] rfl (by decide)).2
    (PublicGameInfo.mk "a" 0 1 "c") hmem (by decide)

/-! ### Lemmas about the trace semantics -/

theorem runMaster_append (N : Nat) (st : MasterState Nat) (tr : List MEvent)
    (e : MEvent) :
    runMaster N st (tr ++ [e]) = stepMaster N (runMaster N st tr) e := by
  simp [runMaster]

theorem validFrom_append (N : Nat) (st : MasterState Nat) (tr tr2 : List MEvent) :
    validFrom N st (tr ++ tr2)
      = (validFrom N st tr && validFrom N (runMaster N st tr) tr2) := by
  induction tr generalizing st with
  | nil => simp [validFrom, runMaster]
  | cons e tr ih =>
    show (okEvent N st e && validFrom N (stepMaster N st e) (tr ++ tr2)) = _
    rw [ih]
    show _ = ((okEvent N st e && validFrom N (stepMaster N st e) tr)
      && validFrom N (runMaster N st (e :: tr)) tr2)
    have : runMaster N st (e :: tr) = runMaster N (stepMaster N st e) tr := rfl
    rw [this, Bool.and_assoc]

theorem handleWorkerReady_workerLobbies {H : Type} (N : Nat)
    (st : MasterState H) (j : Nat) :
    (handleWorkerReady N st j).workerLobbies = st.workerLobbies := by
  by_cases h : (jsAdd st.readyWorkers j).length = N ∧ st.started = false <;>
    simp [handleWorkerReady, h]

theorem handleWorkerReady_workers {H : Type} (N : Nat) (st : MasterState H)
    (j : Nat) : (handleWorkerReady N st j).workers = st.workers := by
  by_cases h : (jsAdd st.readyWorkers j).length = N ∧ st.started = false <;>
    simp [handleWorkerReady, h]

theorem handleWorkerReady_readyWorkers {H : Type} (N : Nat) (st : MasterState H)
    (j : Nat) :
    (handleWorkerReady N st j).readyWorkers = jsAdd st.readyWorkers j := by
  by_cases h : (jsAdd st.readyWorkers j).length = N ∧ st.started = false <;>
    simp [handleWorkerReady, h]

theorem lastReportedIn_register (j h : Nat) (rest : List MEvent) (id : Nat) :
    lastReportedIn (MEvent.register j h :: rest) id = lastReportedIn rest id := rfl

theorem lastReportedIn_ready (j : Nat) (rest : List MEvent) (id : Nat) :
    lastReportedIn (MEvent.ready j :: rest) id = lastReportedIn rest id := rfl

theorem lastReportedIn_remove (j : Nat) (rest : List MEvent) (id : Nat) :
    lastReportedIn (MEvent.remove j :: rest) id
      = if j = id then none else lastReportedIn rest id := rfl

theorem lastReportedIn_report (j : Nat) (gs : List PublicGameInfo)
    (rest : List MEvent) (id : Nat) :
    lastReportedIn (MEvent.reportLobbies j gs :: rest) id
      = if j = id then some gs else lastReportedIn rest id := rfl

theorem isRegisteredIn_register (j h : Nat) (rest : List MEvent) (id : Nat) :
    isRegisteredIn (MEvent.register j h :: rest) id
      = if j = id then true else isRegisteredIn rest id := rfl

theorem isRegisteredIn_ready (j : Nat) (rest : List MEvent) (id : Nat) :
    isRegisteredIn (MEvent.ready j :: rest) id = isRegisteredIn rest id := rfl

theorem isRegisteredIn_remove (j : Nat) (rest : List MEvent) (id : Nat) :
    isRegisteredIn (MEvent.remove j :: rest) id
      = if j = id then false else isRegisteredIn rest id := rfl

theorem isRegisteredIn_report (j : Nat) (gs : List PublicGameInfo)
    (rest : List MEvent) (id : Nat) :
    isRegisteredIn (MEvent.reportLobbies j gs :: rest) id
      = isRegisteredIn rest id := rfl

/-- The reported lobby map of a run matches the backwards scan of the trace,
for every trace. -/
theorem jsGet_workerLobbies_run (N : Nat) (tr : List MEvent) (id : Nat) :
    jsGet (runMaster N (initialMaster Nat) tr).workerLobbies id
      = lastReportedIn tr.reverse id := by
  induction tr using List.reverseRecOn with
  | nil => rfl
  | append_singleton tr e ih =>
    rw [runMaster_append]
    have hrev : (tr ++ [e]).reverse = e :: tr.reverse := by simp
    rw [hrev]
    cases e with
    | register j h =>
      show jsGet (runMaster N (initialMaster Nat) tr).workerLobbies id = _
      rw [ih, lastReportedIn_register]
    | remove j =>
      show jsGet (jsDelete (runMaster N (initialMaster Nat) tr).workerLobbies j) id = _
      rw [jsGet_jsDelete, ih, lastReportedIn_remove]
    | ready j =>
      show jsGet (handleWorkerReady N (runMaster N (initialMaster Nat) tr) j).workerLobbies id = _
      rw [handleWorkerReady_workerLobbies, ih, lastReportedIn_ready]
    | reportLobbies j gs =>
      show jsGet (jsSet (runMaster N (initialMaster Nat) tr).workerLobbies j gs) id = _
      rw [jsGet_jsSet, ih, lastReportedIn_report]

/-- A worker's handle is registered exactly when the backwards scan says it
is, for every trace. -/
theorem jsGet_workers_run (N : Nat) (tr : List MEvent) (id : Nat) :
    (jsGet (runMaster N (initialMaster Nat) tr).workers id).isSome
      = isRegisteredIn tr.reverse id := by
  induction tr using List.reverseRecOn with
  | nil => rfl
  | append_singleton tr e ih =>
    rw [runMaster_append]
    have hrev : (tr ++ [e]).reverse = e :: tr.reverse := by simp
    rw [hrev]
    cases e with
    | register j h =>
      show (jsGet (jsSet (runMaster N (initialMaster Nat) tr).workers j h) id).isSome = _
      rw [jsGet_jsSet, isRegisteredIn_register]
      by_cases hj : j = id <;> simp [hj, ih]
    | remove j =>
      show (jsGet (jsDelete (runMaster N (initialMaster Nat) tr).workers j) id).isSome = _
      rw [jsGet_jsDelete, isRegisteredIn_remove]
      by_cases hj : j = id <;> simp [hj, ih]
    | ready j =>
      show (jsGet (handleWorkerReady N (runMaster N (initialMaster Nat) tr) j).workers id).isSome = _
      rw [handleWorkerReady_workers, ih, isRegisteredIn_ready]
    | reportLobbies j gs =>
      show (jsGet (runMaster N (initialMaster Nat) tr).workers id).isSome = _
      rw [ih, isRegisteredIn_report]

/-- On admissible traces, a worker that has a surviving report is currently
registered (reports are only accepted from registered workers, and removal
erases the report). -/
theorem lastReported_implies_registered (N : Nat) (tr : List MEvent)
    (hv : validFrom N (initialMaster Nat) tr = true) (id : Nat)
    (hs : (lastReportedIn tr.reverse id).isSome = true) :
    isRegisteredIn tr.reverse id = true := by
  induction tr using List.reverseRecOn with
  | nil => simp [lastReportedIn] at hs
  | append_singleton tr e ih =>
    have hv2 := validFrom_append N (initialMaster Nat) tr [e]
    rw [hv] at hv2
    have hv1 : validFrom N (initialMaster Nat) tr = true :=
      (Bool.and_eq_true_iff.mp hv2.symm).1
    have hoke : okEvent N (runMaster N (initialMaster Nat) tr) e = true := by
      have := (Bool.and_eq_true_iff.mp hv2.symm).2
      simp [validFrom] at this
      exact this
    have hrev : (tr ++ [e]).reverse = e :: tr.reverse := by simp
    rw [hrev] at hs ⊢
    cases e with
    | register j h =>
      rw [lastReportedIn_register] at hs
      rw [isRegisteredIn_register]
      by_cases hj : j = id
      · simp [hj]
      · simp only [if_neg hj]
        exact ih hv1 hs
    | remove j =>
      rw [lastReportedIn_remove] at hs
      rw [isRegisteredIn_remove]
      by_cases hj : j = id
      · rw [if_pos hj] at hs
        simp at hs
      · rw [if_neg hj] at hs
        rw [if_neg hj]
        exact ih hv1 hs
    | ready j =>
      rw [lastReportedIn_ready] at hs
      rw [isRegisteredIn_ready]
      exact ih hv1 hs
    | reportLobbies j gs =>
      rw [isRegisteredIn_report]
      by_cases hj : j = id
      · subst hj
        simp only [okEvent, Bool.and_eq_true] at hoke
        rw [jsGet_workers_run] at hoke
        exact hoke.2
      · rw [lastReportedIn_report, if_neg hj] at hs
        exact ih hv1 hs

/-! ### Readiness gating lemmas (C3) -/

theorem step_ready_nodup (N : Nat) (st : MasterState Nat) (e : MEvent)
    (h : st.readyWorkers.Nodup) : (stepMaster N st e).readyWorkers.Nodup := by
  cases e with
  | register j hh => exact h
  | remove j => exact nodup_jsErase _ _ h
  | ready j =>
    show (handleWorkerReady N st j).readyWorkers.Nodup
    rw [handleWorkerReady_readyWorkers]
    exact nodup_jsAdd _ _ h
  | reportLobbies j gs => exact h

theorem runMaster_ready_nodup (N : Nat) (st : MasterState Nat)
    (tr : List MEvent) (h : st.readyWorkers.Nodup) :
    (runMaster N st tr).readyWorkers.Nodup := by
  induction tr generalizing st with
  | nil => exact h
  | cons e tr ih => exact ih (stepMaster N st e) (step_ready_nodup N st e h)

theorem runMaster_ready_lt (N : Nat) (st : MasterState Nat) (tr : List MEvent)
    (hv : validFrom N st tr = true) (h : ∀ j ∈ st.readyWorkers, j < N) :
    ∀ j ∈ (runMaster N st tr).readyWorkers, j < N := by
  induction tr generalizing st with
  | nil => exact h
  | cons e tr ih =>
    have hv2 := Bool.and_eq_true_iff.mp hv
    refine ih (stepMaster N st e) hv2.2 ?_
    cases e with
    | register j hh => exact h
    | remove j =>
      intro x hx
      exact h x ((mem_jsErase _ _ _).mp hx).1
    | ready j =>
      intro x hx
      rw [show (stepMaster N st (MEvent.ready j)).readyWorkers
            = jsAdd st.readyWorkers j from handleWorkerReady_readyWorkers N st j] at hx
      rcases (mem_jsAdd _ _ _).mp hx with hx | hx
      · exact h x hx
      · subst hx
        have := hv2.1
        simpa [okEvent] using this
    | reportLobbies j gs => exact h

theorem runMaster_ready_source (N : Nat) (st : MasterState Nat)
    (tr : List MEvent) :
    ∀ j ∈ (runMaster N st tr).readyWorkers,
      j ∈ st.readyWorkers ∨ MEvent.ready j ∈ tr := by
  induction tr generalizing st with
  | nil =>
    intro j hj
    exact Or.inl hj
  | cons e tr ih =>
    intro j hj
    rcases ih (stepMaster N st e) j hj with hsrc | hsrc
    · cases e with
      | register i hh => exact Or.inl hsrc
      | remove i => exact Or.inl ((mem_jsErase _ _ _).mp hsrc).1
      | ready i =>
        rw [show (stepMaster N st (MEvent.ready i)).readyWorkers
              = jsAdd st.readyWorkers i from handleWorkerReady_readyWorkers N st i] at hsrc
        rcases (mem_jsAdd _ _ _).mp hsrc with hsrc | hsrc
        · exact Or.inl hsrc
        · subst hsrc
          exact Or.inr (List.mem_cons_self _ _)
      | reportLobbies i gs => exact Or.inl hsrc
    · exact Or.inr (List.mem_cons_of_mem _ hsrc)

theorem step_started_mono (N : Nat) (st : MasterState Nat) (e : MEvent)
    (h : st.started = true) : (stepMaster N st e).started = true := by
  cases e with
  | register j hh => exact h
  | remove j => exact h
  | ready j =>
    show (handleWorkerReady N st j).started = true
    unfold handleWorkerReady
    by_cases hb : (jsAdd st.readyWorkers j).length = N ∧ st.started = false
    · simp [hb]
    · simp [hb, h]
  | reportLobbies j gs => exact h

theorem step_not_started_short (N : Nat) (st : MasterState Nat) (e : MEvent)
    (hN : 0 < N) (h : st.started = false → st.readyWorkers.length < N)
    (hf : (stepMaster N st e).started = false) :
    (stepMaster N st e).readyWorkers.length < N := by
  cases e with
  | register j hh => exact h hf
  | remove j =>
    have := h hf
    have hle := length_jsErase_le st.readyWorkers j
    show (jsErase st.readyWorkers j).length < N
    omega
  | ready j =>
    by_cases hb : (jsAdd st.readyWorkers j).length = N ∧ st.started = false
    · have : (stepMaster N st (MEvent.ready j)).started = true := by
        show (handleWorkerReady N st j).started = true
        simp [handleWorkerReady, hb]
      rw [this] at hf
      cases hf
    · have hready : (stepMaster N st (MEvent.ready j)).readyWorkers
          = jsAdd st.readyWorkers j := handleWorkerReady_readyWorkers N st j
      have hstarted : (stepMaster N st (MEvent.ready j)).started = st.started := by
        show (handleWorkerReady N st j).started = st.started
        simp [handleWorkerReady, hb]
      rw [hstarted] at hf
      have hlt := h hf
      have hle := length_jsAdd_le st.readyWorkers j
      have hne : (jsAdd st.readyWorkers j).length ≠ N := by
        intro hcontra
        exact hb ⟨hcontra, hf⟩
      rw [hready]
      omega
  | reportLobbies j gs => exact h hf

theorem runMaster_not_started_short (N : Nat) (st : MasterState Nat)
    (tr : List MEvent) (hN : 0 < N)
    (h : st.started = false → st.readyWorkers.length < N)
    (hf : (runMaster N st tr).started = false) :
    (runMaster N st tr).readyWorkers.length < N := by
  induction tr generalizing st with
  | nil => exact h hf
  | cons e tr ih =>
    exact ih (stepMaster N st e) (step_not_started_short N st e hN h) hf

theorem step_startEvents (N : Nat) (st : MasterState Nat) (e : MEvent)
    (h : st.startEvents = if st.started then 1 else 0) :
    (stepMaster N st e).startEvents
      = if (stepMaster N st e).started then 1 else 0 := by
  cases e with
  | register j hh => exact h
  | remove j => exact h
  | ready j =>
    show (handleWorkerReady N st j).startEvents
      = if (handleWorkerReady N st j).started then 1 else 0
    by_cases hb : (jsAdd st.readyWorkers j).length = N ∧ st.started = false
    · simp [handleWorkerReady, hb]
      rw [hb.2] at h
      simpa using h
    · simp [handleWorkerReady, hb]
      exact h
  | reportLobbies j gs => exact h

theorem runMaster_startEvents (N : Nat) (st : MasterState Nat)
    (tr : List MEvent) (h : st.startEvents = if st.started then 1 else 0) :
    (runMaster N st tr).startEvents
      = if (runMaster N st tr).started then 1 else 0 := by
  induction tr generalizing st with
  | nil => exact h
  | cons e tr ih => exact ih (stepMaster N st e) (step_startEvents N st e h)

/-- A duplicate-free list of naturals below `N` with length `N` contains every
natural below `N`. -/
theorem full_range_of_nodup (l : List Nat) (N : Nat) (hn : l.Nodup)
    (hlt : ∀ x ∈ l, x < N) (hlen : l.length = N) :
    ∀ id, id < N → id ∈ l := by
  intro id hid
  have hsub : l.toFinset ⊆ Finset.range N := by
    intro x hx
    rw [Finset.mem_range]
    exact hlt x (List.mem_toFinset.mp hx)
  have hcard : l.toFinset.card = N := by
    rw [List.card_toFinset, List.dedup_eq_self.mpr hn, hlen]
  have heq : l.toFinset = Finset.range N :=
    Finset.eq_of_subset_of_card_le hsub (by rw [hcard, Finset.card_range])
  rw [← List.mem_toFinset, heq, Finset.mem_range]
  exact hid

/-- A duplicate-free list containing every natural below `N` has at least `N`
elements. -/
theorem length_ge_of_range_subset (l : List Nat) (N : Nat) (hn : l.Nodup)
    (h : ∀ id, id < N → id ∈ l) : N ≤ l.length := by
  have hsub : Finset.range N ⊆ l.toFinset := by
    intro x hx
    exact List.mem_toFinset.mpr (h x (Finset.mem_range.mp hx))
  have := Finset.card_le_card hsub
  rwa [Finset.card_range, List.card_toFinset,
    List.dedup_eq_self.mpr hn] at this

/-- If the loops have started, every configured worker sent a ready signal at
some point of the trace. -/
theorem runMaster_started_ready_events (N : Nat) (tr : List MEvent)
    (hv : validFrom N (initialMaster Nat) tr = true)
    (hstart : (runMaster N (initialMaster Nat) tr).started = true) :
    ∀ id, id < N → MEvent.ready id ∈ tr := by
  induction tr using List.reverseRecOn with
  | nil => cases hstart
  | append_singleton tr e ih =>
    have hv2 := validFrom_append N (initialMaster Nat) tr [e]
    rw [hv] at hv2
    have hv1 : validFrom N (initialMaster Nat) tr = true :=
      (Bool.and_eq_true_iff.mp hv2.symm).1
    have hoke : okEvent N (runMaster N (initialMaster Nat) tr) e = true := by
      have := (Bool.and_eq_true_iff.mp hv2.symm).2
      simp [validFrom] at this
      exact this
    rw [runMaster_append] at hstart
    intro id hid
    cases e with
    | register j h =>
      exact List.mem_append_left _ (ih hv1 hstart id hid)
    | remove j =>
      exact List.mem_append_left _ (ih hv1 hstart id hid)
    | reportLobbies j gs =>
      exact List.mem_append_left _ (ih hv1 hstart id hid)
    | ready j =>
      by_cases hb : (jsAdd (runMaster N (initialMaster Nat) tr).readyWorkers j).length = N
          ∧ (runMaster N (initialMaster Nat) tr).started = false
      · -- the loops start on this very event: the new ready set is full
        have hnodup : (jsAdd (runMaster N (initialMaster Nat) tr).readyWorkers j).Nodup :=
          nodup_jsAdd _ _ (runMaster_ready_nodup N (initialMaster Nat) tr List.nodup_nil)
        have hjlt : j < N := by simpa [okEvent] using hoke
        have hlt : ∀ x ∈ jsAdd (runMaster N (initialMaster Nat) tr).readyWorkers j, x < N := by
          intro x hx
          rcases (mem_jsAdd _ _ _).mp hx with hx | hx
          · exact runMaster_ready_lt N (initialMaster Nat) tr hv1 (by simp [initialMaster]) x hx
          · subst hx; exact hjlt
        have hmem : id ∈ jsAdd (runMaster N (initialMaster Nat) tr).readyWorkers j :=
          full_range_of_nodup _ N hnodup hlt hb.1 id hid
        rcases (mem_jsAdd _ _ _).mp hmem with hmem | hmem
        · rcases runMaster_ready_source N (initialMaster Nat) tr id hmem with hmem | hmem
          · simp [initialMaster] at hmem
          · exact List.mem_append_left _ hmem
        · subst hmem
          exact List.mem_append_right _ (List.mem_singleton.mpr rfl)
      · -- the flag did not flip on this event, so it was already set
        have : (stepMaster N (runMaster N (initialMaster Nat) tr) (MEvent.ready j)).started
            = (runMaster N (initialMaster Nat) tr).started := by
          show (handleWorkerReady N _ j).started = _
          simp [handleWorkerReady, hb]
        rw [this] at hstart
        exact List.mem_append_left _ (ih hv1 hstart id hid)

/-- Without removals, a worker that signalled ready stays in the ready set. -/
theorem runMaster_ready_persists (N : Nat) (st : MasterState Nat)
    (tr : List MEvent) (hnorem : ∀ e ∈ tr, isRemoveEvent e = false) :
    ∀ j, (j ∈ st.readyWorkers ∨ MEvent.ready j ∈ tr) →
      j ∈ (runMaster N st tr).readyWorkers := by
  induction tr generalizing st with
  | nil =>
    intro j hj
    rcases hj with hj | hj
    · exact hj
    · cases hj
  | cons e tr ih =>
    intro j hj
    have hnorem1 : ∀ x ∈ tr, isRemoveEvent x = false := by
      intro x hx
      exact hnorem x (List.mem_cons_of_mem _ hx)
    show j ∈ (runMaster N (stepMaster N st e) tr).readyWorkers
    cases e with
    | register i hh =>
      refine ih (stepMaster N st (MEvent.register i hh)) hnorem1 j ?_
      rcases hj with hj | hj
      · exact Or.inl hj
      · rcases List.mem_cons.mp hj with hj | hj
        · cases hj
        · exact Or.inr hj
    | remove i =>
      have := hnorem (MEvent.remove i) (List.mem_cons_self _ _)
      simp [isRemoveEvent] at this
    | ready i =>
      refine ih (stepMaster N st (MEvent.ready i)) hnorem1 j ?_
      have hready : (stepMaster N st (MEvent.ready i)).readyWorkers
          = jsAdd st.readyWorkers i := handleWorkerReady_readyWorkers N st i
      rcases hj with hj | hj
      · exact Or.inl (by rw [hready]; exact (mem_jsAdd _ _ _).mpr (Or.inl hj))
      · rcases List.mem_cons.mp hj with hj | hj
        · have hji : j = i := by cases hj; rfl
          subst hji
          exact Or.inl (by rw [hready]; exact (mem_jsAdd _ _ _).mpr (Or.inr rfl))
        · exact Or.inr hj
    | reportLobbies i gs =>
      refine ih (stepMaster N st (MEvent.reportLobbies i gs)) hnorem1 j ?_
      rcases hj with hj | hj
      · exact Or.inl hj
      · rcases List.mem_cons.mp hj with hj | hj
        · cases hj
        · exact Or.inr hj

/-! ### C3: readiness gating of the polling loops -/

/-- C3: along any admissible trace from the fresh coordinator, (i) the
polling loops are started only after a `workerReady` has been received from
every one of the `N` configured workers; (ii) the guarded start block has run
exactly once if the flag is set and never otherwise (so duplicate ready
signals after the start change nothing); and (iii) once ready signals from
all `N` distinct workers have arrived (and none was deregistered), the loops
have started, exactly once. -/
theorem readiness_gating (N : Nat) (tr : List MEvent) (hN : 0 < N)
    (hv : validFrom N (initialMaster Nat) tr = true) :
    ((runMaster N (initialMaster Nat) tr).started = true →
        ∀ id, id < N → MEvent.ready id ∈ tr)
    ∧ (runMaster N (initialMaster Nat) tr).startEvents
        = (if (runMaster N (initialMaster Nat) tr).started then 1 else 0)
    ∧ ((∀ e ∈ tr, isRemoveEvent e = false) →
        (∀ id, id < N → MEvent.ready id ∈ tr) →
        (runMaster N (initialMaster Nat) tr).started = true
        ∧ (runMaster N (initialMaster Nat) tr).startEvents = 1) := by
  refine ⟨runMaster_started_ready_events N tr hv, ?_, ?_⟩
  · exact runMaster_startEvents N (initialMaster Nat) tr rfl
  · intro hnorem hall
    have hmem : ∀ id, id < N → id ∈ (runMaster N (initialMaster Nat) tr).readyWorkers := by
      intro id hid
      exact runMaster_ready_persists N (initialMaster Nat) tr hnorem id
        (Or.inr (hall id hid))
    have hnodup : (runMaster N (initialMaster Nat) tr).readyWorkers.Nodup :=
      runMaster_ready_nodup N (initialMaster Nat) tr List.nodup_nil
    have hlen : N ≤ (runMaster N (initialMaster Nat) tr).readyWorkers.length :=
      length_ge_of_range_subset _ N hnodup hmem
    have hstart : (runMaster N (initialMaster Nat) tr).started = true := by
      by_contra hcontra
      have hfalse : (runMaster N (initialMaster Nat) tr).started = false :=
        Bool.not_eq_true _ ▸ Bool.eq_false_iff.mpr hcontra
      have := runMaster_not_started_short N (initialMaster Nat) tr hN
        (fun _ => by simpa [initialMaster] using hN) hfalse
      omega
    refine ⟨hstart, ?_⟩
    rw [runMaster_startEvents N (initialMaster Nat) tr rfl, hstart]
    rfl

/-- Witness for C3: one configured worker, a single ready signal. -/
theorem readiness_gating_witness :
    validFrom 1 (initialMaster Nat) [MEvent.ready 0] = true
    ∧ (runMaster 1 (initialMaster Nat) [MEvent.ready 0]).started = true
    ∧ (runMaster 1 (initialMaster Nat) [MEvent.ready 0]).startEvents = 1 := by
  refine ⟨by decide, ?_⟩
  exact (readiness_gating 1 [MEvent.ready 0] (by decide) (by decide)).2.2
    (by decide) (by decide)

/-! ### Aggregation lemmas (C1) -/

theorem filterMap_update_perm {α : Type} (l : List Nat) (k : Nat) (v : α)
    (f : Nat → Option α) (hn : l.Nodup) (hk : k ∈ l) (hf : f k = none) :
    List.Perm (l.filterMap (fun i => if k = i then some v else f i))
      (v :: l.filterMap f) := by
  induction l with
  | nil => simp at hk
  | cons a l ih =>
    rcases List.mem_cons.mp hk with heq | hk2
    · subst heq
      rw [List.filterMap_cons_some (by rw [if_pos rfl]),
          List.filterMap_cons_none hf]
      apply List.Perm.cons
      have hpt : ∀ i ∈ l, (if k = i then some v else f i) = f i := by
        intro i hi
        have hne : k ≠ i := by
          intro hcontra
          exact (List.nodup_cons.mp hn).1 (hcontra ▸ hi)
        rw [if_neg hne]
      rw [List.filterMap_congr hpt]
    · have hak : a ≠ k := by
        intro hcontra
        exact (List.nodup_cons.mp hn).1 (hcontra ▸ hk2)
      have hka : ¬ (k = a) := fun hcontra => hak hcontra.symm
      cases hfa : f a with
      | none =>
        rw [List.filterMap_cons_none (by rw [if_neg hka]; exact hfa),
            List.filterMap_cons_none hfa]
        exact ih (List.nodup_cons.mp hn).2 hk2
      | some w =>
        rw [List.filterMap_cons_some (by rw [if_neg hka]; exact hfa),
            List.filterMap_cons_some hfa]
        refine List.Perm.trans
          (List.Perm.cons w (ih (List.nodup_cons.mp hn).2 hk2)) ?_
        exact List.Perm.swap v w _

/-- For an association list with duplicate-free keys below `N`, looking every
index of `0..N-1` up yields a permutation of the stored values. -/
theorem values_perm_filterMap {α : Type} (m : List (Nat × α)) (N : Nat)
    (hn : (mapKeys m).Nodup) (hlt : ∀ k ∈ mapKeys m, k < N) :
    List.Perm ((List.range N).filterMap (fun id => jsGet m id)) (jsValues m) := by
  induction m with
  | nil => simp [jsGet, jsValues]
  | cons e rest ih =>
    obtain ⟨k, v⟩ := e
    have hkeys : mapKeys ((k, v) :: rest) = k :: mapKeys rest := rfl
    rw [hkeys] at hn hlt
    have hk : k < N := hlt k (List.mem_cons_self _ _)
    have hknotin : k ∉ mapKeys rest := (List.nodup_cons.mp hn).1
    have hfk : jsGet rest k = none := by
      rcases hjk : jsGet rest k with _ | w
      · rfl
      · exact absurd ((jsGet_isSome_iff_mem_mapKeys rest k).mp (by rw [hjk]; rfl))
          hknotin
    have hpt : (List.range N).filterMap (fun id => jsGet ((k, v) :: rest) id)
        = (List.range N).filterMap (fun id => if k = id then some v else jsGet rest id) := by
      refine List.filterMap_congr ?_
      intro i _
      rfl
    rw [hpt]
    refine List.Perm.trans
      (filterMap_update_perm (List.range N) k v _ (List.nodup_range N)
        (List.mem_range.mpr hk) hfk) ?_
    show List.Perm (v :: (List.range N).filterMap (fun id => jsGet rest id))
      (jsValues ((k, v) :: rest))
    exact List.Perm.cons v
      (ih (List.nodup_cons.mp hn).2 (fun x hx => hlt x (List.mem_cons_of_mem _ hx)))

theorem step_workerLobbies_keys_nodup (N : Nat) (st : MasterState Nat)
    (e : MEvent) (h : (mapKeys st.workerLobbies).Nodup) :
    (mapKeys (stepMaster N st e).workerLobbies).Nodup := by
  cases e with
  | register j hh => exact h
  | remove j => exact nodup_mapKeys_jsDelete _ _ h
  | ready j =>
    show (mapKeys (handleWorkerReady N st j).workerLobbies).Nodup
    rw [handleWorkerReady_workerLobbies]
    exact h
  | reportLobbies j gs => exact nodup_mapKeys_jsSet _ _ _ h

theorem runMaster_workerLobbies_keys_nodup (N : Nat) (st : MasterState Nat)
    (tr : List MEvent) (h : (mapKeys st.workerLobbies).Nodup) :
    (mapKeys (runMaster N st tr).workerLobbies).Nodup := by
  induction tr generalizing st with
  | nil => exact h
  | cons e tr ih =>
    exact ih (stepMaster N st e) (step_workerLobbies_keys_nodup N st e h)

theorem runMaster_workerLobbies_keys_lt (N : Nat) (st : MasterState Nat)
    (tr : List MEvent) (hv : validFrom N st tr = true)
    (h : ∀ k ∈ mapKeys st.workerLobbies, k < N) :
    ∀ k ∈ mapKeys (runMaster N st tr).workerLobbies, k < N := by
  induction tr generalizing st with
  | nil => exact h
  | cons e tr ih =>
    have hv2 := Bool.and_eq_true_iff.mp hv
    refine ih (stepMaster N st e) hv2.2 ?_
    cases e with
    | register j hh => exact h
    | remove j =>
      intro x hx
      exact h x (mem_mapKeys_jsDelete _ _ _ hx)
    | ready j =>
      intro x hx
      rw [show (stepMaster N st (MEvent.ready j)).workerLobbies
            = st.workerLobbies from handleWorkerReady_workerLobbies N st j] at hx
      exact h x hx
    | reportLobbies j gs =>
      intro x hx
      rcases mem_mapKeys_jsSet _ _ _ _ hx with hx | hx
      · exact h x hx
      · subst hx
        have := hv2.1
        simp [okEvent] at this
        exact this.1

theorem leStartsAt_trans (a b c : PublicGameInfo)
    (hab : leStartsAt a b) (hbc : leStartsAt b c) : leStartsAt a c := by
  simp [leStartsAt] at hab hbc ⊢
  omega

theorem leStartsAt_total (a b : PublicGameInfo) :
    leStartsAt a b || leStartsAt b a := by
  simp [leStartsAt]
  omega

/-! ### C1: the broadcast aggregate matches the specification -/

/-- C1: along any admissible trace of `lobbyList` reports and
`registerWorker` / `removeWorker` calls from the configured workers, the
`games` list computed on a broadcast tick is a permutation of the
concatenation of the most recently reported lobby list of each currently
registered worker — nothing survives from a worker removed before the
computation — and it is sorted ascending by `startsAt`. -/
theorem aggregate_matches_spec (N : Nat) (tr : List MEvent)
    (hv : validFrom N (initialMaster Nat) tr = true) :
    List.Perm (getAllLobbies (runMaster N (initialMaster Nat) tr))
      (specAggregate N tr)
    ∧ (getAllLobbies (runMaster N (initialMaster Nat) tr)).Pairwise
        (fun a b => leStartsAt a b = true) := by
  constructor
  · have hnodup : (mapKeys (runMaster N (initialMaster Nat) tr).workerLobbies).Nodup :=
      runMaster_workerLobbies_keys_nodup N _ tr (by simp [initialMaster, mapKeys])
    have hlt : ∀ k ∈ mapKeys (runMaster N (initialMaster Nat) tr).workerLobbies, k < N :=
      runMaster_workerLobbies_keys_lt N _ tr hv (by simp [initialMaster, mapKeys])
    have h1 : List.Perm (getAllLobbies (runMaster N (initialMaster Nat) tr))
        ((jsValues (runMaster N (initialMaster Nat) tr).workerLobbies).flatten) :=
      List.mergeSort_perm _ _
    have h2 : List.Perm
        ((List.range N).filterMap
          (fun id => jsGet (runMaster N (initialMaster Nat) tr).workerLobbies id))
        (jsValues (runMaster N (initialMaster Nat) tr).workerLobbies) :=
      values_perm_filterMap _ N hnodup hlt
    have h3 : (List.range N).filterMap
        (fun id => jsGet (runMaster N (initialMaster Nat) tr).workerLobbies id)
        = (List.range N).filterMap (fun id =>
            if isRegisteredIn tr.reverse id then lastReportedIn tr.reverse id
            else none) := by
      refine List.filterMap_congr ?_
      intro id _
      rw [jsGet_workerLobbies_run]
      by_cases hreg : isRegisteredIn tr.reverse id
      · rw [if_pos hreg]
      · rw [if_neg hreg]
        rcases hlr : lastReportedIn tr.reverse id with _ | gs
        · rfl
        · exact absurd
            (lastReported_implies_registered N tr hv id (by rw [hlr]; rfl)) hreg
    have h4 := List.Perm.flatten h2.symm
    rw [h3] at h4
    exact h1.trans h4
  · exact List.sorted_mergeSort leStartsAt_trans leStartsAt_total _

/-- Witness for C1: two registered workers with one reported lobby each. -/
theorem aggregate_matches_spec_witness :
    validFrom 2 (initialMaster Nat)
      [MEvent.register 0 7, MEvent.register 1 8,
       MEvent.reportLobbies 0 [PublicGameInfo.mk "a" 0 5 "c"],
       MEvent.reportLobbies 1 [PublicGameInfo.mk "b" 0 3 "c"]] = true
    ∧ List.Perm
        (getAllLobbies (runMaster 2 (initialMaster Nat)
          [MEvent.register 0 7, MEvent.register 1 8,
           MEvent.reportLobbies 0 [PublicGameInfo.mk "a" 0 5 "c"],
           MEvent.reportLobbies 1 [PublicGameInfo.mk "b" 0 3 "c"]]))
        (specAggregate 2
          [MEvent.register 0 7, MEvent.register 1 8,
           MEvent.reportLobbies 0 [PublicGameInfo.mk "a" 0 5 "c"],
           MEvent.reportLobbies 1 [PublicGameInfo.mk "b" 0 3 "c"]]) := by
  refine ⟨by decide, ?_⟩
  exact (aggregate_matches_spec 2
    [MEvent.register 0 7, MEvent.register 1 8,
     MEvent.reportLobbies 0 [PublicGameInfo.mk "a" 0 5 "c"],
     MEvent.reportLobbies 1 [PublicGameInfo.mk "b" 0 3 "c"]] (by decide)).1

end Orchestration
